import Mathlib

/-!
# Verification of the chat client's streaming and session logic

This file embeds the core logic of the chat application:

* `src/services/groqService.ts` — the streaming response consumer
  (`sendMessageStream`), the error handler (`handleApiError`) and the
  title generator (`getTitleForChat`);
* `src/App.tsx` — the session controller (`handleSendMessage`,
  `updateSessionMessages`, `confirmDeleteChat`) and the
  localStorage persistence effects.

Strings manipulated by the byte-level stream machinery are embedded as
`List Char`; bytes as `Nat` (0..255).  The incremental text decoder
(`TextDecoder` with `stream: true`) is embedded as a byte-at-a-time
state machine following the WHATWG UTF-8 decoder, including default
BOM stripping.  `JSON.parse` is an external platform function; the
places that consume its result are parameterised by an extraction
function (for the stream: the value found at
`choices[0]?.delta?.content`, `none` when parsing fails or the field
is absent).
-/

/-! ## Character helpers -/

/-- The newline character, `'\n'` in the source. -/
def nlChar : Char := Char.ofNat 10

/-- The set of characters removed by JavaScript's `String.prototype.trim`
(whitespace and line terminators). -/
def jsWhitespace (c : Char) : Bool :=
  c.toNat = 32 || c.toNat = 9 || c.toNat = 10 || c.toNat = 11 ||
  c.toNat = 12 || c.toNat = 13 || c.toNat = 160 || c.toNat = 0xFEFF ||
  c.toNat = 0x2028 || c.toNat = 0x2029

/-- `String.prototype.trim`: drop leading and trailing whitespace. -/
def trimChars (l : List Char) : List Char :=
  ((l.dropWhile jsWhitespace).reverse.dropWhile jsWhitespace).reverse

/-- `String.prototype.trim` on an embedded `String`. -/
def jsTrim (s : String) : String := String.mk (trimChars s.data)

/-- `buffer.lastIndexOf('\n')` together with the two `substring` calls of
`sendMessageStream`: returns `some (before, after)` with
`l = before ++ '\n' :: after` where the shown newline is the last one
(`after` is newline-free), and `none` when `l` has no newline. -/
def splitLastNl : List Char → Option (List Char × List Char)
  | [] => none
  | c :: cs =>
    match splitLastNl cs with
    | some (b, a) => some (c :: b, a)
    | none => if c = nlChar then some ([], cs) else none

/-- `String.prototype.split('\n')` on a `List Char`. -/
def splitNl : List Char → List (List Char)
  | [] => [[]]
  | c :: cs =>
    if c = nlChar then [] :: splitNl cs
    else
      match splitNl cs with
      | [] => [[c]]
      | l :: ls => (c :: l) :: ls

/-! ## The per-line state of `sendMessageStream` (lines 140–167)

`acc` is `accumulatedResponse`; `halted` records that the generator has
returned (the `data: [DONE]` sentinel was seen). -/

structure AState where
  acc : List Char
  halted : Bool
deriving DecidableEq, Repr

/-- The `'data: '` event marker checked by `line.startsWith('data: ')`. -/
def dataMarker : List Char := ['d', 'a', 't', 'a', ':', ' ']

/-- The `'[DONE]'` termination sentinel. -/
def doneMarker : List Char := ['[', 'D', 'O', 'N', 'E', ']']

/-- One iteration of the `for (const line of lines)` loop of
`sendMessageStream` (lines 140–167).  `e` models
`JSON.parse(dataString)` followed by `data.choices[0]?.delta?.content`:
it returns `none` when parsing throws (the record is logged and
skipped) or the content field is absent.  The returned list holds the
values yielded by this line (the accumulated response so far). -/
def procLine (e : List Char → Option (List Char)) (st : AState) (line : List Char) :
    AState × List (List Char) :=
  if st.halted then (st, [])
  else if line.take 6 = dataMarker then
    let ds := trimChars (line.drop 6)
    if ds = doneMarker then ({ st with halted := true }, [])
    else if ds = [] then (st, [])
    else
      match e ds with
      | some content =>
        if content = [] then (st, [])
        else ({ st with acc := st.acc ++ content }, [st.acc ++ content])
      | none => (st, [])
  else (st, [])

/-- The whole `for (const line of lines)` loop over a batch of lines,
collecting the yielded values in order. -/
def procLines (e : List Char → Option (List Char)) (st : AState) :
    List (List Char) → AState × List (List Char)
  | [] => (st, [])
  | l :: ls =>
    let p := procLine e st l
    let q := procLines e p.1 ls
    (q.1, p.2 ++ q.2)

/-- The deltas produced by the stream over a batch of lines: the
`content` fields of the successfully parsed `data:` records, in order,
up to (and excluding) the `[DONE]` sentinel.  Mirrors the record
selection of `procLine`. -/
def recordedDeltas (e : List Char → Option (List Char)) :
    List (List Char) → List (List Char)
  | [] => []
  | line :: rest =>
    if line.take 6 = dataMarker then
      let ds := trimChars (line.drop 6)
      if ds = doneMarker then []
      else if ds = [] then recordedDeltas e rest
      else
        match e ds with
        | some content => content :: recordedDeltas e rest
        | none => recordedDeltas e rest
    else recordedDeltas e rest

/-- Running concatenations of a list of deltas: the sequence of values
`acc ++ d₁`, `acc ++ d₁ ++ d₂`, … . -/
def scanCat (acc : List Char) : List (List Char) → List (List Char)
  | [] => []
  | d :: ds => (acc ++ d) :: scanCat (acc ++ d) ds

/-! ## The incremental UTF-8 text decoder

`new TextDecoder()` with `decode(value, { stream: true })`, embedded as
the WHATWG UTF-8 decoder: a byte-at-a-time state machine.  A leading
byte-order mark is stripped (the default `ignoreBOM: false`); malformed
sequences emit U+FFFD (the default `fatal: false`). -/

structure DecState where
  codepoint : Nat
  needed : Nat
  lower : Nat
  upper : Nat
  bomDone : Bool
deriving DecidableEq, Repr

def initDecState : DecState := ⟨0, 0, 0x80, 0xBF, false⟩

def replacementChar : Char := Char.ofNat 0xFFFD

/-- Decode one byte in the initial (no pending sequence) state. -/
def decodeStart (bom : Bool) (b : Nat) : DecState × List Char :=
  if b ≤ 0x7F then ({ initDecState with bomDone := bom }, [Char.ofNat b])
  else if 0xC2 ≤ b ∧ b ≤ 0xDF then
    ({ codepoint := b &&& 0x1F, needed := 1, lower := 0x80, upper := 0xBF, bomDone := bom }, [])
  else if 0xE0 ≤ b ∧ b ≤ 0xEF then
    ({ codepoint := b &&& 0xF, needed := 2,
       lower := if b = 0xE0 then 0xA0 else 0x80,
       upper := if b = 0xED then 0x9F else 0xBF, bomDone := bom }, [])
  else if 0xF0 ≤ b ∧ b ≤ 0xF4 then
    ({ codepoint := b &&& 0x7, needed := 3,
       lower := if b = 0xF0 then 0x90 else 0x80,
       upper := if b = 0xF4 then 0x8F else 0xBF, bomDone := bom }, [])
  else ({ initDecState with bomDone := bom }, [replacementChar])

/-- Strip a leading U+FEFF once at the very start of the decoded stream. -/
def stripBom (d : DecState) (cs : List Char) : DecState × List Char :=
  match cs with
  | [] => (d, [])
  | c :: rest =>
    if d.bomDone then (d, cs)
    else if c = Char.ofNat 0xFEFF then ({ d with bomDone := true }, rest)
    else ({ d with bomDone := true }, cs)

/-- Decode one byte: the WHATWG UTF-8 decoder step.  On a malformed
continuation byte the replacement character is emitted and the byte is
reprocessed in the initial state. -/
def decodeByte (d : DecState) (b : Nat) : DecState × List Char :=
  let r :=
    if d.needed = 0 then decodeStart d.bomDone b
    else if d.lower ≤ b ∧ b ≤ d.upper then
      let cp := (d.codepoint <<< 6) ||| (b &&& 0x3F)
      if d.needed = 1 then ({ initDecState with bomDone := d.bomDone }, [Char.ofNat cp])
      else ({ codepoint := cp, needed := d.needed - 1,
              lower := 0x80, upper := 0xBF, bomDone := d.bomDone }, [])
    else
      let s := decodeStart d.bomDone b
      (s.1, replacementChar :: s.2)
  stripBom r.1 r.2

/-- `decoder.decode(value, { stream: true })` on one byte chunk. -/
def decodeChunk (d : DecState) : List Nat → DecState × List Char
  | [] => (d, [])
  | b :: bs =>
    let p := decodeByte d b
    let q := decodeChunk p.1 bs
    (q.1, p.2 ++ q.2)

/-! ## The chunk loop of `sendMessageStream` (lines 116–168) -/

/-- The state carried across `reader.read()` iterations: the partial-line
`buffer` and the per-line state. -/
structure SState where
  buffer : List Char
  state : AState
deriving DecidableEq, Repr

/-- One iteration of the `while (true)` read loop on an already decoded
text chunk: append to the buffer, look for the last newline, process
every complete line, retain the trailing partial line. -/
def procChunk (e : List Char → Option (List Char)) (st : SState) (chunk : List Char) :
    SState × List (List Char) :=
  let buf := st.buffer ++ chunk
  match splitLastNl buf with
  | none => ({ st with buffer := buf }, [])
  | some (before, after) =>
    let p := procLines e st.state (splitNl before)
    (⟨after, p.1⟩, p.2)

/-- The full per-read state: decoder state plus stream state. -/
structure FullState where
  dec : DecState
  stream : SState
deriving DecidableEq, Repr

/-- One `reader.read()` iteration on a raw byte chunk. -/
def consumeChunk (e : List Char → Option (List Char)) (st : FullState) (bytes : List Nat) :
    FullState × List (List Char) :=
  let d := decodeChunk st.dec bytes
  let p := procChunk e st.stream d.2
  (⟨d.1, p.1⟩, p.2)

/-- The whole read loop over a list of byte chunks. -/
def consumeChunks (e : List Char → Option (List Char)) (st : FullState) :
    List (List Nat) → FullState × List (List Char)
  | [] => (st, [])
  | c :: cs =>
    let p := consumeChunk e st c
    let q := consumeChunks e p.1 cs
    (q.1, p.2 ++ q.2)

def initAState : AState := ⟨[], false⟩

def initSState : SState := ⟨[], initAState⟩

def initFullState : FullState := ⟨initDecState, initSState⟩

/-- The sequence of values yielded by `sendMessageStream` over a given
sequence of byte chunks of the response body. -/
def sendMessageStreamYields (e : List Char → Option (List Char))
    (chunks : List (List Nat)) : List (List Char) :=
  (consumeChunks e initFullState chunks).2

/-! ## Data model (`src/types.ts`) -/

inductive MessageRole where
  | user
  | model
  | error
deriving DecidableEq, Repr

structure Message where
  role : MessageRole
  content : String
deriving DecidableEq, Repr

structure ChatSession where
  id : String
  title : String
  messages : List Message
deriving DecidableEq, Repr

/-! ## `src/services/groqService.ts` -/

/-- The `SYSTEM_INSTRUCTION` constant sent with every streaming request. -/
def systemInstruction : String :=
  "When asked who made you or who is your creator, you must respond with: \"I was created by Mohd Abusufiyan Jahagirdar with Love.\""

/-- `mapRoleToApi`: the application role mapped to the API role string. -/
def mapRoleToApi : MessageRole → String
  | MessageRole.user => "user"
  | MessageRole.model => "assistant"
  | MessageRole.error => "user"

/-- One `{role, content}` entry of the request body. -/
structure ApiMessage where
  role : String
  content : String
deriving DecidableEq, Repr

/-- `messagesToApi` (lines 74–85): the filtered, mapped history followed by
the new user message. -/
def messagesToApi (history : List Message) (message : String) : List ApiMessage :=
  (history.filter (fun m =>
      decide (m.role = MessageRole.user) || decide (m.role = MessageRole.model))).map
    (fun m => ⟨mapRoleToApi m.role, m.content⟩) ++ [⟨"user", message⟩]

/-- `body.messages` (lines 88–95): the system instruction prepended to
`messagesToApi`. -/
def requestMessages (history : List Message) (message : String) : List ApiMessage :=
  ⟨"system", systemInstruction⟩ :: messagesToApi history message

/-- The outcome of `JSON.parse(errorText)` followed by
`errorJson?.error?.message` inside `handleApiError`: `ok m` when parsing
succeeded (`m` the optional `error.message` field), `failed` when
`JSON.parse` threw. -/
inductive JsonParseResult where
  | ok (message : Option String)
  | failed
deriving DecidableEq, Repr

/-- `handleApiError` (lines 44–58): the message of the `Error` it throws.
`statusText` is `response.statusText`, `errorText` the response body text
and `parsed` the outcome of `JSON.parse(errorText)`. -/
def handleApiError (statusText errorText : String) (parsed : JsonParseResult) : String :=
  let base := "API request failed: " ++ statusText
  let msg :=
    match parsed with
    | JsonParseResult.ok (some m) => if m = "" then base else m
    | JsonParseResult.ok none => base
    | JsonParseResult.failed => if errorText = "" then base else errorText
  "Groq API Error: " ++ msg

/-- Models lines 108–110 and 169–176: a non-success HTTP status makes
`handleApiError` throw, and the `Error` is re-thrown out of
`sendMessageStream` before any value is yielded. -/
def streamOutcomeOfHttpError (statusText errorText : String)
    (parsed : JsonParseResult) : Except (Option String) Unit :=
  Except.error (some (handleApiError statusText errorText parsed))

/-- The outcome of the non-streaming title request inside
`getTitleForChat`: `thrown` when `fetch` rejected or `handleApiError`
threw on a non-success status, `jsonFailed` when `response.json()` threw,
`parsed c` when the body parsed (`c` the optional
`choices[0]?.message?.content`). -/
inductive TitleFetchResult where
  | thrown
  | jsonFailed
  | parsed (content : Option String)
deriving DecidableEq, Repr

/-- `content?.trim().replace(/["'*]/g, '')` — trim, then remove every
double quote, single quote and asterisk. -/
def stripTitle (s : String) : String :=
  String.mk ((trimChars s.data).filter
    (fun c => !(c.toNat = 34 || c.toNat = 39 || c.toNat = 42)))

/-- `getTitleForChat` (lines 184–226), with the remote call's outcome as
an explicit argument.  Every path returns a string: the `catch` turns any
thrown error into the placeholder title. -/
def getTitleForChat (messages : List Message) (r : TitleFetchResult) : String :=
  if messages.isEmpty then "New Chat"
  else
    match r with
    | TitleFetchResult.thrown => "New Chat"
    | TitleFetchResult.jsonFailed => "New Chat"
    | TitleFetchResult.parsed none => "New Chat"
    | TitleFetchResult.parsed (some c) =>
      let title := stripTitle c
      if title = "" then "New Chat" else title

/-- The claim's reading of the title cleanup: only quote characters
removed (no trimming, asterisks kept). -/
def removeQuoteChars (s : String) : String :=
  String.mk (s.toList.filter (fun c => !(c.toNat = 34 || c.toNat = 39)))

/-- The amended title contract, stated from the spec's words: the
placeholder on empty input or any failed remote call, otherwise the
remote title trimmed with quotes and asterisks stripped, falling back to
the placeholder when that result is empty. -/
def titleContract (messages : List Message) (r : TitleFetchResult) : String :=
  match messages, r with
  | [], _ => "New Chat"
  | _ :: _, TitleFetchResult.parsed (some c) =>
    if stripTitle c = "" then "New Chat" else stripTitle c
  | _ :: _, _ => "New Chat"

/-! ## `src/App.tsx` — the session controller

The React component state is embedded as `AppState`.  `inFlight`
replaces the `isLoading` boolean together with the local variables
`finalSessionId` and `isNewSession` of a pending `handleSendMessage`
call: `isLoading` is true exactly when `inFlight` is `some`. -/

structure AppState where
  chatSessions : List ChatSession
  activeSessionId : Option String
  input : String
  inFlight : Option (String × Bool)
deriving DecidableEq, Repr

/-- The `isLoading` flag. -/
def isLoading (st : AppState) : Bool := st.inFlight.isSome

/-- `updateSessionMessages` (lines 61–72): map over the sessions,
replacing the messages of those whose id matches. -/
def updateSessionMessages (sessions : List ChatSession) (sessionId : String)
    (updateFn : List Message → List Message) : List ChatSession :=
  sessions.map (fun session =>
    if session.id == sessionId then { session with messages := updateFn session.messages }
    else session)

/-- `[...messages]` followed by an in-place update of the last element:
apply `f` to the last element of the list, if any. -/
def mapLast (f : Message → Message) : List Message → List Message
  | [] => []
  | [m] => [f m]
  | m :: rest => m :: mapLast f rest

/-- The fallback error text of `handleSendMessage` when the thrown value
is not an `Error`. -/
def fallbackErrorText : String :=
  "Sorry, something went wrong. Please check your API key and try again."

/-- The synchronous first phase of `handleSendMessage` (lines 145–192):
the guard, session creation or lookup, and the append of the user
message and the empty placeholder model message.  `newId` is the
`uuidv4()` value used if a session has to be created. -/
def sendStart (st : AppState) (content newId : String) : AppState :=
  if jsTrim content = "" || isLoading st then st
  else
    let st0 := { st with input := "" }
    match st0.activeSessionId with
    | none =>
      let s : ChatSession := ⟨newId, "New Chat", []⟩
      let st1 := { st0 with chatSessions := s :: st0.chatSessions,
                            activeSessionId := some newId }
      if newId = "" then st1
      else
        { st1 with
          chatSessions := updateSessionMessages st1.chatSessions newId
            (fun ms => ms ++ [⟨MessageRole.user, content⟩, ⟨MessageRole.model, ""⟩]),
          inFlight := some (newId, true) }
    | some sid =>
      match st0.chatSessions.find? (fun s => s.id == sid) with
      | none => st0
      | some _ =>
        if sid = "" then st0
        else
          { st0 with
            chatSessions := updateSessionMessages st0.chatSessions sid
              (fun ms => ms ++ [⟨MessageRole.user, content⟩, ⟨MessageRole.model, ""⟩]),
            inFlight := some (sid, false) }

/-- One `for await (const chunk of stream)` iteration (lines 200–209):
overwrite the content of the trailing message of the in-flight session. -/
def applyDelta (st : AppState) (chunk : String) : AppState :=
  match st.inFlight with
  | none => st
  | some (sid, _) =>
    { st with chatSessions := updateSessionMessages st.chatSessions sid
                  (mapLast (fun m => { m with content := chunk })) }

/-- Normal completion (lines 211–223 and the `finally`): rewrite the
title of a newly created session with the generated title, then clear
the in-flight flag. -/
def finishOk (st : AppState) (newTitle : String) : AppState :=
  match st.inFlight with
  | none => st
  | some (sid, isNew) =>
    let st1 :=
      if isNew then
        { st with chatSessions := st.chatSessions.map (fun s =>
            if s.id == sid then { s with title := newTitle } else s) }
      else st
    { st1 with inFlight := none }

/-- Failure (lines 224–242 and the `finally`): replace the trailing
message of the in-flight session with an error-role message, then clear
the in-flight flag.  `errMsg` is `error.message` when the thrown value
was an `Error`, `none` otherwise. -/
def finishError (st : AppState) (errMsg : Option String) : AppState :=
  match st.inFlight with
  | none => st
  | some (sid, _) =>
    let m : Message := ⟨MessageRole.error, errMsg.getD fallbackErrorText⟩
    { st with
      chatSessions := updateSessionMessages st.chatSessions sid (mapLast (fun _ => m)),
      inFlight := none }

/-- `handleSendMessage` (lines 143–248) run to completion: the start
phase, the streamed values applied in order, then the success or failure
epilogue.  `yields` are the values the stream yielded before finishing
with `result`; `newTitle` is the title returned by `getTitleForChat`
(which never throws). -/
def handleSendMessage (st : AppState) (content newId : String)
    (yields : List String) (result : Except (Option String) Unit)
    (newTitle : String) : AppState :=
  if jsTrim content = "" || isLoading st then st
  else
    let st1 := yields.foldl applyDelta (sendStart st content newId)
    match result with
    | Except.ok _ => finishOk st1 newTitle
    | Except.error e => finishError st1 e

/-- `confirmDeleteChat` (lines 260–273), with the session id to delete as
an argument (the `sessionToDelete` state; the guard rejects the falsy
empty string). -/
def confirmDeleteChat (st : AppState) (sessionToDelete : String) : AppState :=
  if sessionToDelete = "" then st
  else
    let remaining := st.chatSessions.filter (fun s => !(s.id == sessionToDelete))
    let st1 := { st with chatSessions := remaining }
    if st.activeSessionId = some sessionToDelete then
      match remaining with
      | [] => { st1 with activeSessionId := none }
      | first :: _ => { st1 with activeSessionId := some first.id }
    else st1

/-! ## `src/App.tsx` — persistence effects (lines 86–130)

The two localStorage keys.  `JSON.stringify`/`JSON.parse` round-trip the
plain session records; the slot therefore stores the structured value
(`none` models an absent key). -/

structure Storage where
  sessions : Option (List ChatSession)
  activeId : Option String
deriving DecidableEq, Repr

/-- The save effect (lines 117–130).  Every key of the previous storage
contents is overwritten or removed, so the result ignores `_st`. -/
def saveEffect (chatSessions : List ChatSession) (activeSessionId : Option String)
    (_st : Storage) : Storage :=
  if chatSessions.isEmpty then ⟨none, none⟩
  else
    ⟨some chatSessions,
     match activeSessionId with
     | some a => if a = "" then none else some a
     | none => none⟩

/-- The load effect (lines 86–114): restore the collection, then the
active id if it is a non-empty string naming a restored session, else
the first (most recent) session, else none. -/
def loadEffect (st : Storage) : List ChatSession × Option String :=
  let loaded := st.sessions.getD []
  match loaded with
  | [] => ([], none)
  | first :: _ =>
    match st.activeId with
    | some savedId =>
      if savedId ≠ "" ∧ loaded.any (fun s => s.id == savedId) then (loaded, some savedId)
      else (loaded, some first.id)
    | none => (loaded, some first.id)

/-! ## Reachable-state operations (for the alternation invariant)

The operations of the session controller as a transition system:
starting a send, receiving a stream delta, stream completion, stream
failure, and deleting a session. -/

inductive Op where
  | send (content newId : String)
  | delta (chunk : String)
  | complete (newTitle : String)
  | fail (errMsg : Option String)
  | deleteChat (id : String)
deriving DecidableEq, Repr

def stepOp (st : AppState) : Op → AppState
  | Op.send content newId => sendStart st content newId
  | Op.delta chunk => applyDelta st chunk
  | Op.complete newTitle => finishOk st newTitle
  | Op.fail errMsg => finishError st errMsg
  | Op.deleteChat id => confirmDeleteChat st id

def initialAppState : AppState := ⟨[], none, "", none⟩

def runOps (ops : List Op) : AppState := ops.foldl stepOp initialAppState

/-- The alternation shape of a session's message list: user/model pairs
in which the model slot may hold an error-role message (the wholesale
replacement after a failed request). -/
inductive Alt : List Message → Prop where
  | nil : Alt []
  | cons (u m : Message) (rest : List Message) :
      u.role = MessageRole.user →
      (m.role = MessageRole.model ∨ m.role = MessageRole.error) →
      Alt rest → Alt (u :: m :: rest)

/-! ## Basic lemmas -/

theorem find?_map_of_pres {α : Type} (p : α → Bool) (g : α → α) (l : List α)
    (hp : ∀ x, p (g x) = p x) :
    (l.map g).find? p = (l.find? p).map g := by
  induction l with
  | nil => rfl
  | cons x xs ih =>
    by_cases hx : p x
    · simp [List.find?, hp, hx]
    · simp only [List.map_cons, List.find?]
      rw [hp x]
      simp only [hx]
      exact ih

theorem mapLast_append_two (f : Message → Message) (ms : List Message) (x y : Message) :
    mapLast f (ms ++ [x, y]) = ms ++ [x, f y] := by
  induction ms with
  | nil => rfl
  | cons m rest ih =>
    cases rest with
    | nil => simp [mapLast]
    | cons r rs => simpa [mapLast] using ih

/-! ## Claim 10 — `updateSessionMessages` is a frame-preserving update -/

/-- **C10.** For every session collection, target id and update function,
`updateSessionMessages` keeps the length, leaves every session whose id
differs from the target unchanged, and on matching sessions keeps `id`
and `title` while replacing `messages` by the updated list. -/
theorem claim10_frame (sessions : List ChatSession) (sid : String)
    (f : List Message → List Message) :
    (updateSessionMessages sessions sid f).length = sessions.length ∧
    ∀ (i : Nat) (hi : i < sessions.length)
      (hi2 : i < (updateSessionMessages sessions sid f).length),
      ((sessions.get ⟨i, hi⟩).id ≠ sid →
        (updateSessionMessages sessions sid f).get ⟨i, hi2⟩ = sessions.get ⟨i, hi⟩) ∧
      ((updateSessionMessages sessions sid f).get ⟨i, hi2⟩).id = (sessions.get ⟨i, hi⟩).id ∧
      ((updateSessionMessages sessions sid f).get ⟨i, hi2⟩).title
        = (sessions.get ⟨i, hi⟩).title ∧
      ((sessions.get ⟨i, hi⟩).id = sid →
        ((updateSessionMessages sessions sid f).get ⟨i, hi2⟩).messages
          = f (sessions.get ⟨i, hi⟩).messages) := by
  refine ⟨by simp [updateSessionMessages], ?_⟩
  intro i hi hi2
  by_cases h : (sessions.get ⟨i, hi⟩).id = sid
  · simp only [List.get_eq_getElem] at h ⊢
    simp [updateSessionMessages, h]
  · simp only [List.get_eq_getElem] at h ⊢
    simp [updateSessionMessages, h]

def c10Sessions : List ChatSession :=
  [⟨"a", "t1", []⟩, ⟨"b", "t2", [⟨MessageRole.user, "q"⟩, ⟨MessageRole.model, "r"⟩]⟩]

theorem claim10_witness :
    ((c10Sessions.get ⟨0, by decide⟩).id ≠ "b" →
      (updateSessionMessages c10Sessions "b" (fun ms => ms ++ [⟨MessageRole.user, "z"⟩])).get
          ⟨0, by decide⟩ = c10Sessions.get ⟨0, by decide⟩) ∧
    ((updateSessionMessages c10Sessions "b" (fun ms => ms ++ [⟨MessageRole.user, "z"⟩])).get
        ⟨0, by decide⟩).id = (c10Sessions.get ⟨0, by decide⟩).id ∧
    ((updateSessionMessages c10Sessions "b" (fun ms => ms ++ [⟨MessageRole.user, "z"⟩])).get
        ⟨0, by decide⟩).title = (c10Sessions.get ⟨0, by decide⟩).title ∧
    ((c10Sessions.get ⟨0, by decide⟩).id = "b" →
      ((updateSessionMessages c10Sessions "b" (fun ms => ms ++ [⟨MessageRole.user, "z"⟩])).get
          ⟨0, by decide⟩).messages = (c10Sessions.get ⟨0, by decide⟩).messages
            ++ [⟨MessageRole.user, "z"⟩]) :=
  (claim10_frame c10Sessions "b" (fun ms => ms ++ [⟨MessageRole.user, "z"⟩])).2
    0 (by decide) (by decide)

/-! ## Claim 4 — a re-entrant or blank send is a no-op -/

/-- **C4.** When a send is already in flight (`isLoading` true) or the
content is blank after trimming, `handleSendMessage` leaves the session
collection and the active-session id (hence every session's message
list) unchanged, appending nothing. -/
theorem claim4_reentrant_noop (st : AppState) (content newId : String)
    (yields : List String) (result : Except (Option String) Unit) (newTitle : String)
    (h : isLoading st = true ∨ jsTrim content = "") :
    (handleSendMessage st content newId yields result newTitle).chatSessions
      = st.chatSessions ∧
    (handleSendMessage st content newId yields result newTitle).activeSessionId
      = st.activeSessionId := by
  rcases h with h | h
  · simp [handleSendMessage, h]
  · simp [handleSendMessage, h]

def c4State : AppState := ⟨[⟨"a", "t", []⟩], some "a", "", some ("a", false)⟩

theorem claim4_witness :
    (isLoading c4State = true ∨ (jsTrim "x" = "")) ∧
    ((handleSendMessage c4State "x" "n" [] (Except.ok ()) "t").chatSessions
        = c4State.chatSessions ∧
     (handleSendMessage c4State "x" "n" [] (Except.ok ()) "t").activeSessionId
        = c4State.activeSessionId) :=
  ⟨Or.inl rfl, claim4_reentrant_noop c4State "x" "n" [] (Except.ok ()) "t" (Or.inl rfl)⟩

/-! ## Claim 5 — persistence round-trip (corrected)

The save effect stores the active id only when it is a truthy (non-empty)
string, and the load effect ignores a falsy stored id, so an active id
that is the empty string is not restored even when a session with that
id exists.  The claim as stated is therefore refuted by the collection
below; with the active id restricted to non-empty strings the round-trip
holds. -/

def c5Sessions : List ChatSession := [⟨"x", "t", []⟩, ⟨"", "u", []⟩]

/-- **C5 counterexample.** The collection round-trips, the previously
active id `""` names a session of the restored collection, yet the
restored active id is `some "x"`, not `some ""`. -/
theorem claim5_counterexample :
    c5Sessions.any (fun s => s.id == "") = true ∧
    (loadEffect (saveEffect c5Sessions (some "") ⟨none, none⟩)).1 = c5Sessions ∧
    (loadEffect (saveEffect c5Sessions (some "") ⟨none, none⟩)).2 = some "x" ∧
    some "x" ≠ some "" := by
  refine ⟨by decide, by decide, by decide, by decide⟩

/-- **C5 amended.** Persisting a non-empty collection and restoring it
reproduces an identical collection; the active id is restored whenever it
is a *non-empty* string naming a restored session, otherwise the first
(most recent) session becomes active; an empty collection restores to no
sessions and no active session. -/
theorem claim5_roundtrip_amended (first : ChatSession) (rest : List ChatSession)
    (active : Option String) (st : Storage) :
    loadEffect (saveEffect (first :: rest) active st) =
      (first :: rest,
       some (match active with
             | some a =>
               if a ≠ "" ∧ (first :: rest).any (fun s => s.id == a) then a else first.id
             | none => first.id)) ∧
    loadEffect (saveEffect [] active st) = ([], none) := by
  refine ⟨?_, rfl⟩
  cases active with
  | none => simp [saveEffect, loadEffect]
  | some a =>
    by_cases ha : a = ""
    · subst ha
      simp [saveEffect, loadEffect]
    · by_cases hmem : (first :: rest).any (fun s => s.id == a) = true
      · simp [saveEffect, loadEffect, ha, hmem]
      · simp [saveEffect, loadEffect, ha, hmem]

/-! ## Claim 9 — the title generator (corrected)

`getTitleForChat` never throws and degrades to the placeholder on every
failure path, but the cleanup step also trims whitespace and removes
asterisks (the regex is `/["'*]/g`), and an all-quote title falls back to
the placeholder; the result is therefore not always "the remote title
with quote characters stripped". -/

/-- **C9 counterexample.** A remote title `"*Hi*"` contains no quote
characters, so the claim predicts it is returned unchanged; the code
returns `"Hi"`. -/
theorem claim9_counterexample :
    getTitleForChat [⟨MessageRole.user, "hi"⟩] (TitleFetchResult.parsed (some "*Hi*"))
        = "Hi" ∧
    removeQuoteChars "*Hi*" = "*Hi*" ∧
    getTitleForChat [⟨MessageRole.user, "hi"⟩] (TitleFetchResult.parsed (some "*Hi*"))
        ≠ removeQuoteChars "*Hi*" := by
  refine ⟨by decide, by decide, by decide⟩

/-- **C9 amended.** For every input list and every outcome of the remote
call, `getTitleForChat` returns a string (it never throws): the
placeholder `"New Chat"` when the input is empty or the remote call
fails in any way (thrown transport error, non-success status, unparsable
body, missing content), and otherwise the remote title trimmed with
quote characters and asterisks stripped, falling back to the placeholder
when that result is empty. -/
theorem claim9_title_amended (messages : List Message) (r : TitleFetchResult) :
    getTitleForChat messages r = titleContract messages r := by
  cases messages with
  | nil => cases r with
    | thrown => rfl
    | jsonFailed => rfl
    | parsed c => cases c <;> rfl
  | cons m ms => cases r with
    | thrown => rfl
    | jsonFailed => rfl
    | parsed c =>
      cases c with
      | none => rfl
      | some s => simp [getTitleForChat, titleContract]

/-! ## Claim 7 — the request message list (corrected)

The history sent to the API is *filtered*: messages whose role is
neither `user` nor `model` (i.e. `error`-role messages) are removed
before the request body is built, so not every message of the prior
history appears in the request. -/

def c7History : List Message :=
  [⟨MessageRole.user, "hi"⟩, ⟨MessageRole.error, "boom"⟩]

/-- **C7 counterexample.** The prior history contains an error-role
message whose content appears nowhere in the request message list. -/
theorem claim7_counterexample :
    (⟨MessageRole.error, "boom"⟩ : Message) ∈ c7History ∧
    (requestMessages c7History "next").all (fun m => !(m.content == "boom")) = true := by
  refine ⟨by decide, by decide⟩

/-- **C7 amended.** The message list placed in the streaming request body
is the system instruction, then the prior history restricted to user-
and model-role messages (roles mapped to the API's `user`/`assistant`),
then the new user content as the final entry; in particular every user-
or model-role message of the prior history appears in the request. -/
theorem claim7_history_amended (history : List Message) (msg : String) (m : Message)
    (hm : m ∈ history)
    (hrole : m.role = MessageRole.user ∨ m.role = MessageRole.model) :
    (⟨mapRoleToApi m.role, m.content⟩ : ApiMessage) ∈ requestMessages history msg ∧
    (requestMessages history msg).getLast? = some ⟨"user", msg⟩ := by
  constructor
  · have hp : (fun x : Message =>
        decide (x.role = MessageRole.user) || decide (x.role = MessageRole.model)) m
          = true := by
      rcases hrole with h | h <;> simp [h]
    have hmem : m ∈ history.filter (fun x =>
        decide (x.role = MessageRole.user) || decide (x.role = MessageRole.model)) :=
      List.mem_filter.mpr ⟨hm, hp⟩
    have : (⟨mapRoleToApi m.role, m.content⟩ : ApiMessage) ∈ messagesToApi history msg := by
      unfold messagesToApi
      exact List.mem_append_left _ (List.mem_map_of_mem _ hmem)
    exact List.mem_cons_of_mem _ this
  · show (ApiMessage.mk "system" systemInstruction ::
      (_ ++ [ApiMessage.mk "user" msg])).getLast? = _
    rw [← List.cons_append, List.getLast?_concat]

def c7WitnessHistory : List Message := [⟨MessageRole.user, "hi"⟩]

theorem claim7_witness :
    (⟨mapRoleToApi MessageRole.user, "hi"⟩ : ApiMessage)
        ∈ requestMessages c7WitnessHistory "m" ∧
    (requestMessages c7WitnessHistory "m").getLast? = some ⟨"user", "m"⟩ :=
  claim7_history_amended c7WitnessHistory "m" ⟨MessageRole.user, "hi"⟩
    (by decide) (Or.inl rfl)

/-! ## Stream lemmas -/

theorem procLines_halted (e : List Char → Option (List Char)) (acc : List Char)
    (lines : List (List Char)) :
    procLines e ⟨acc, true⟩ lines = (⟨acc, true⟩, []) := by
  induction lines with
  | nil => rfl
  | cons l ls ih => simp [procLines, procLine, ih]

theorem procLines_append (e : List Char → Option (List Char)) (st : AState)
    (l1 l2 : List (List Char)) :
    procLines e st (l1 ++ l2)
      = ((procLines e (procLines e st l1).1 l2).1,
         (procLines e st l1).2 ++ (procLines e (procLines e st l1).1 l2).2) := by
  induction l1 generalizing st with
  | nil => simp [procLines]
  | cons l ls ih => simp [procLines, ih]

theorem scanCat_length (acc : List Char) (l : List (List Char)) :
    (scanCat acc l).length = l.length := by
  induction l generalizing acc with
  | nil => rfl
  | cons d ds ih => simp [scanCat, ih]

theorem scanCat_get? (l : List (List Char)) (acc : List Char) (n : Nat)
    (h : n < l.length) :
    (scanCat acc l).get? n = some (acc ++ (l.take (n + 1)).flatten) := by
  induction l generalizing acc n with
  | nil => simp at h
  | cons d ds ih =>
    cases n with
    | zero => simp [scanCat]
    | succ n =>
      have h' : n < ds.length := by simpa using h
      calc (scanCat acc (d :: ds)).get? (n + 1)
          = (scanCat (acc ++ d) ds).get? n := rfl
        _ = some ((acc ++ d) ++ (ds.take (n + 1)).flatten) := ih (acc ++ d) n h'
        _ = some (acc ++ ((d :: ds).take (n + 1 + 1)).flatten) := by
            simp [List.append_assoc]

theorem procLines_yields_scanCat (e : List Char → Option (List Char))
    (lines : List (List Char)) (acc : List Char) :
    (procLines e ⟨acc, false⟩ lines).2
      = scanCat acc ((recordedDeltas e lines).filter (fun d => !d.isEmpty)) := by
  induction lines generalizing acc with
  | nil => rfl
  | cons line rest ih =>
    by_cases hdata : line.take 6 = dataMarker
    · by_cases hdone : trimChars (line.drop 6) = doneMarker
      · simp [procLines, procLine, recordedDeltas, hdata, hdone, procLines_halted, scanCat]
      · by_cases hempty : trimChars (line.drop 6) = []
        · simp [procLines, procLine, recordedDeltas, hdata, hdone, hempty, ih, doneMarker]
        · cases he : e (trimChars (line.drop 6)) with
          | none =>
            simp [procLines, procLine, recordedDeltas, hdata, hdone, hempty, he, ih]
          | some content =>
            by_cases hc : content = []
            · simp [procLines, procLine, recordedDeltas, hdata, hdone, hempty, he, hc, ih]
            · simp [procLines, procLine, recordedDeltas, hdata, hdone, hempty, he, hc, ih,
                scanCat]
    · simp [procLines, procLine, recordedDeltas, hdata, ih]

/-! ## Claim 1 — accumulated yields are prefix concatenations of the deltas -/

/-- **C1.** Over any batch of lines and any outcome of record parsing,
the `n`-th value yielded by the stream loop (0-indexed) is the
concatenation, in order, of the first `n + 1` non-empty deltas (the
`content` fields of the successfully parsed records), and the number of
yielded values equals the number of non-empty deltas — empty deltas are
never yielded. -/
theorem claim1_delta_concat (e : List Char → Option (List Char))
    (lines : List (List Char)) (n : Nat)
    (h : n < ((procLines e initAState lines).2).length) :
    ((procLines e initAState lines).2).get? n
      = some ((((recordedDeltas e lines).filter (fun d => !d.isEmpty)).take (n + 1)).flatten) ∧
    ((procLines e initAState lines).2).length
      = ((recordedDeltas e lines).filter (fun d => !d.isEmpty)).length := by
  have hmain : (procLines e initAState lines).2
      = scanCat [] ((recordedDeltas e lines).filter (fun d => !d.isEmpty)) :=
    procLines_yields_scanCat e lines []
  have hlen : ((procLines e initAState lines).2).length
      = ((recordedDeltas e lines).filter (fun d => !d.isEmpty)).length := by
    rw [hmain, scanCat_length]
  refine ⟨?_, hlen⟩
  have h' : n < ((recordedDeltas e lines).filter (fun d => !d.isEmpty)).length := by
    rw [← hlen]; exact h
  rw [hmain, scanCat_get? _ [] n h']
  simp

/-- A concrete record-content extractor for the witnesses: parsing fails
on the payload `"x"`, succeeds returning the payload itself otherwise. -/
def eDemo : List Char → Option (List Char) :=
  fun ds => if ds = ['x'] then none else some ds

def c1Lines : List (List Char) := [("data: ab").data, ("data: cd").data]

theorem claim1_witness :
    ((procLines eDemo initAState c1Lines).2).get? 1
      = some ((((recordedDeltas eDemo c1Lines).filter (fun d => !d.isEmpty)).take 2).flatten) ∧
    ((procLines eDemo initAState c1Lines).2).length
      = ((recordedDeltas eDemo c1Lines).filter (fun d => !d.isEmpty)).length :=
  claim1_delta_concat eDemo c1Lines 1 (by decide)

/-! ## Claim 8 — a malformed record is skipped without effect -/

theorem procLine_skip (e : List Char → Option (List Char)) (st : AState)
    (bad : List Char) (hdata : bad.take 6 = dataMarker)
    (hdone : trimChars (bad.drop 6) ≠ doneMarker)
    (hne : trimChars (bad.drop 6) ≠ [])
    (hparse : e (trimChars (bad.drop 6)) = none) :
    procLine e st bad = (st, []) := by
  by_cases hh : st.halted
  · simp [procLine, hh]
  · simp [procLine, hh, hdata, hdone, hne, hparse]

/-- **C8.** A `data:` record that is not the sentinel, not blank, and
whose payload fails to parse leaves the stream state and the yield
sequence exactly as if the record were absent: the run over
`l1 ++ bad :: l2` equals the run over `l1 ++ l2` (same final state, same
yields), so no error is raised for the record and all later records are
processed identically. -/
theorem claim8_malformed_skip (e : List Char → Option (List Char)) (st : AState)
    (l1 l2 : List (List Char)) (bad : List Char)
    (hdata : bad.take 6 = dataMarker)
    (hdone : trimChars (bad.drop 6) ≠ doneMarker)
    (hne : trimChars (bad.drop 6) ≠ [])
    (hparse : e (trimChars (bad.drop 6)) = none) :
    procLines e st (l1 ++ bad :: l2) = procLines e st (l1 ++ l2) := by
  rw [procLines_append, procLines_append]
  have hskip := procLine_skip e (procLines e st l1).1 bad hdata hdone hne hparse
  simp [procLines, hskip]

def c8Left : List (List Char) := [("data: ab").data]

def c8Right : List (List Char) := [("data: cd").data]

def c8Bad : List Char := ("data: x").data

theorem claim8_witness :
    procLines eDemo initAState (c8Left ++ c8Bad :: c8Right)
      = procLines eDemo initAState (c8Left ++ c8Right) :=
  claim8_malformed_skip eDemo initAState c8Left c8Right c8Bad
    (by decide) (by decide) (by decide) (by decide)

/-! ## Buffer-splitting lemmas for chunk invariance -/

theorem splitLastNl_append_none (x y : List Char) (hy : splitLastNl y = none)
    (hx : splitLastNl x = none) : splitLastNl (x ++ y) = none := by
  induction x with
  | nil => simpa using hy
  | cons c cs ih =>
    cases hcs : splitLastNl cs with
    | some p => simp [splitLastNl, hcs] at hx
    | none =>
      have hc : ¬ c = nlChar := by
        intro hceq
        simp [splitLastNl, hcs, hceq] at hx
      simp [splitLastNl, ih hcs, hc]

theorem splitLastNl_append_right (x y b a : List Char)
    (h : splitLastNl y = some (b, a)) : splitLastNl (x ++ y) = some (x ++ b, a) := by
  induction x with
  | nil => simpa using h
  | cons c cs ih => simp [splitLastNl, ih]

theorem splitLastNl_append_left (x y b a : List Char) (hy : splitLastNl y = none)
    (hx : splitLastNl x = some (b, a)) : splitLastNl (x ++ y) = some (b, a ++ y) := by
  induction x generalizing b a with
  | nil => simp [splitLastNl] at hx
  | cons c cs ih =>
    cases hcs : splitLastNl cs with
    | some p =>
      obtain ⟨b', a'⟩ := p
      rw [splitLastNl, hcs] at hx
      obtain ⟨hb, ha⟩ : c :: b' = b ∧ a' = a := by
        constructor <;> · injection hx with h1; injection h1
      subst hb; subst ha
      simp [splitLastNl, ih b' a' hcs]
    | none =>
      rw [splitLastNl, hcs] at hx
      by_cases hc : c = nlChar
      · rw [if_pos hc] at hx
        obtain ⟨hb, ha⟩ : ([] : List Char) = b ∧ cs = a := by
          constructor <;> · injection hx with h1; injection h1
        subst hb; subst ha
        simp [splitLastNl, splitLastNl_append_none cs y hy hcs, hc]
      · rw [if_neg hc] at hx
        exact absurd hx (by simp)

theorem splitLastNl_rest (l b a : List Char) (h : splitLastNl l = some (b, a)) :
    splitLastNl a = none := by
  induction l generalizing b a with
  | nil => simp [splitLastNl] at h
  | cons c cs ih =>
    cases hcs : splitLastNl cs with
    | some p =>
      obtain ⟨b', a'⟩ := p
      rw [splitLastNl, hcs] at h
      have ha : a' = a := by injection h with h1; injection h1
      exact ha ▸ ih b' a' hcs
    | none =>
      rw [splitLastNl, hcs] at h
      by_cases hc : c = nlChar
      · rw [if_pos hc] at h
        have ha : cs = a := by injection h with h1; injection h1
        exact ha ▸ hcs
      · rw [if_neg hc] at h
        exact absurd h (by simp)

theorem splitLastNl_decomp (l b a : List Char) (h : splitLastNl l = some (b, a)) :
    l = b ++ nlChar :: a := by
  induction l generalizing b a with
  | nil => simp [splitLastNl] at h
  | cons c cs ih =>
    cases hcs : splitLastNl cs with
    | some p =>
      obtain ⟨b', a'⟩ := p
      rw [splitLastNl, hcs] at h
      obtain ⟨hb, ha⟩ : c :: b' = b ∧ a' = a := by
        constructor <;> · injection h with h1; injection h1
      subst hb; subst ha
      simpa using congrArg (c :: ·) (ih b' a' hcs)
    | none =>
      rw [splitLastNl, hcs] at h
      by_cases hc : c = nlChar
      · rw [if_pos hc] at h
        obtain ⟨hb, ha⟩ : ([] : List Char) = b ∧ cs = a := by
          constructor <;> · injection h with h1; injection h1
        subst hb; subst ha
        simp [hc]
      · rw [if_neg hc] at h
        exact absurd h (by simp)

theorem splitNl_ne_nil (l : List Char) : splitNl l ≠ [] := by
  cases l with
  | nil => simp [splitNl]
  | cons c cs =>
    by_cases hc : c = nlChar
    · simp [splitNl, hc]
    · cases hs : splitNl cs with
      | nil => simp [splitNl, hc, hs]
      | cons x xs => simp [splitNl, hc, hs]

theorem splitNl_append_nl (x y : List Char) :
    splitNl (x ++ nlChar :: y) = splitNl x ++ splitNl y := by
  induction x with
  | nil => simp [splitNl]
  | cons c cs ih =>
    by_cases hc : c = nlChar
    · simp [splitNl, hc, ih]
    · cases hs : splitNl cs with
      | nil => exact absurd hs (splitNl_ne_nil cs)
      | cons l ls => simp [splitNl, hc, ih, hs]

/-! ## Chunk composition -/

theorem procChunk_append (e : List Char → Option (List Char)) (st : SState)
    (a b : List Char) :
    procChunk e st (a ++ b)
      = ((procChunk e (procChunk e st a).1 b).1,
         (procChunk e st a).2 ++ (procChunk e (procChunk e st a).1 b).2) := by
  cases hb : splitLastNl b with
  | none =>
    cases ha : splitLastNl (st.buffer ++ a) with
    | none =>
      have h2 : splitLastNl ((st.buffer ++ a) ++ b) = none :=
        splitLastNl_append_none _ _ hb ha
      have h1 : splitLastNl (st.buffer ++ (a ++ b)) = none := by
        rw [← List.append_assoc]; exact h2
      simp [procChunk, h1, ha, h2, List.append_assoc]
    | some pa =>
      obtain ⟨p0, q⟩ := pa
      have hq : splitLastNl q = none := splitLastNl_rest _ _ _ ha
      have h2 : splitLastNl ((st.buffer ++ a) ++ b) = some (p0, q ++ b) :=
        splitLastNl_append_left _ _ _ _ hb ha
      have h1 : splitLastNl (st.buffer ++ (a ++ b)) = some (p0, q ++ b) := by
        rw [← List.append_assoc]; exact h2
      have h3 : splitLastNl (q ++ b) = none := splitLastNl_append_none _ _ hb hq
      simp [procChunk, h1, ha, h3]
  | some pb =>
    obtain ⟨r, s⟩ := pb
    cases ha : splitLastNl (st.buffer ++ a) with
    | none =>
      have h2 : splitLastNl ((st.buffer ++ a) ++ b) = some ((st.buffer ++ a) ++ r, s) :=
        splitLastNl_append_right _ _ _ _ hb
      have h1 : splitLastNl (st.buffer ++ (a ++ b)) = some ((st.buffer ++ a) ++ r, s) := by
        rw [← List.append_assoc]; exact h2
      simp [procChunk, h1, ha, h2]
    | some pa =>
      obtain ⟨p0, q⟩ := pa
      have hdec : st.buffer ++ a = p0 ++ nlChar :: q := splitLastNl_decomp _ _ _ ha
      have hq : splitLastNl q = none := splitLastNl_rest _ _ _ ha
      have h2 : splitLastNl ((st.buffer ++ a) ++ b) = some ((st.buffer ++ a) ++ r, s) :=
        splitLastNl_append_right _ _ _ _ hb
      have h1 : splitLastNl (st.buffer ++ (a ++ b)) = some ((st.buffer ++ a) ++ r, s) := by
        rw [← List.append_assoc]; exact h2
      have h3 : splitLastNl (q ++ b) = some (q ++ r, s) :=
        splitLastNl_append_right _ _ _ _ hb
      have hsplice : splitNl (st.buffer ++ (a ++ r)) = splitNl p0 ++ splitNl (q ++ r) := by
        calc splitNl (st.buffer ++ (a ++ r))
            = splitNl (p0 ++ nlChar :: (q ++ r)) := by
              rw [← List.append_assoc, hdec]; simp [List.append_assoc]
          _ = splitNl p0 ++ splitNl (q ++ r) := splitNl_append_nl _ _
      simp [procChunk, h1, ha, h3, hsplice, procLines_append]

theorem decodeChunk_append (d : DecState) (x y : List Nat) :
    decodeChunk d (x ++ y)
      = ((decodeChunk (decodeChunk d x).1 y).1,
         (decodeChunk d x).2 ++ (decodeChunk (decodeChunk d x).1 y).2) := by
  induction x generalizing d with
  | nil => simp [decodeChunk]
  | cons b bs ih => simp [decodeChunk, ih]

theorem consumeChunk_append (e : List Char → Option (List Char)) (st : FullState)
    (x y : List Nat) :
    consumeChunk e st (x ++ y)
      = ((consumeChunk e (consumeChunk e st x).1 y).1,
         (consumeChunk e st x).2 ++ (consumeChunk e (consumeChunk e st x).1 y).2) := by
  simp [consumeChunk, decodeChunk_append, procChunk_append]

theorem procChunk_buffer_none (e : List Char → Option (List Char)) (st : SState)
    (c : List Char) : splitLastNl ((procChunk e st c).1.buffer) = none := by
  cases h : splitLastNl (st.buffer ++ c) with
  | none => simp [procChunk, h]
  | some p =>
    obtain ⟨bf, af⟩ := p
    simp [procChunk, h, splitLastNl_rest _ _ _ h]

theorem consumeChunk_nil (e : List Char → Option (List Char)) (st : FullState)
    (h : splitLastNl st.stream.buffer = none) : consumeChunk e st [] = (st, []) := by
  simp [consumeChunk, decodeChunk, procChunk, h]

theorem consumeChunks_flatten (e : List Char → Option (List Char))
    (bs : List (List Nat)) (st : FullState)
    (h : splitLastNl st.stream.buffer = none) :
    consumeChunks e st bs = consumeChunk e st bs.flatten := by
  induction bs generalizing st with
  | nil => simpa [consumeChunks] using (consumeChunk_nil e st h).symm
  | cons c cs ih =>
    have h1 : splitLastNl ((consumeChunk e st c).1).stream.buffer = none := by
      simpa [consumeChunk] using
        procChunk_buffer_none e st.stream (decodeChunk st.dec c).2
    calc consumeChunks e st (c :: cs)
        = ((consumeChunks e (consumeChunk e st c).1 cs).1,
           (consumeChunk e st c).2 ++ (consumeChunks e (consumeChunk e st c).1 cs).2) := by
          simp [consumeChunks]
      _ = ((consumeChunk e (consumeChunk e st c).1 cs.flatten).1,
           (consumeChunk e st c).2 ++ (consumeChunk e (consumeChunk e st c).1 cs.flatten).2) := by
          rw [ih _ h1]
      _ = consumeChunk e st (c ++ cs.flatten) := (consumeChunk_append e st c cs.flatten).symm
      _ = consumeChunk e st ((c :: cs).flatten) := by simp

/-! ## Claim 2 — the yield sequence is invariant under re-chunking -/

/-- **C2.** For every record-content extractor and any two byte-chunk
fragmentations of the same logical byte stream (equal flattenings —
including splits in the middle of a multi-byte UTF-8 character or in the
middle of a line), `sendMessageStream` yields the identical sequence of
accumulated text values. -/
theorem claim2_chunk_invariance (e : List Char → Option (List Char))
    (bs cs : List (List Nat)) (h : bs.flatten = cs.flatten) :
    sendMessageStreamYields e bs = sendMessageStreamYields e cs := by
  unfold sendMessageStreamYields
  rw [consumeChunks_flatten e bs initFullState rfl,
    consumeChunks_flatten e cs initFullState rfl, h]

def c2SplitChunks : List (List Nat) := [[100, 97, 116, 97, 58, 32, 195], [169, 10]]

def c2WholeChunks : List (List Nat) := [[100, 97, 116, 97, 58, 32, 195, 169, 10]]

theorem claim2_witness :
    c2SplitChunks.flatten = c2WholeChunks.flatten ∧
    sendMessageStreamYields eDemo c2SplitChunks
      = sendMessageStreamYields eDemo c2WholeChunks :=
  ⟨by decide, claim2_chunk_invariance eDemo c2SplitChunks c2WholeChunks (by decide)⟩

/-! ## Claim 3 — HTTP error surfaces as a trailing error message -/

theorem find?_updateSessionMessages (l : List ChatSession) (sid : String)
    (f : List Message → List Message) :
    (updateSessionMessages l sid f).find? (fun s => s.id == sid)
      = (l.find? (fun s => s.id == sid)).map
          (fun s => if s.id == sid then { s with messages := f s.messages } else s) := by
  unfold updateSessionMessages
  refine find?_map_of_pres _ _ l ?_
  intro x
  by_cases hx : x.id = sid <;> simp [hx]

/-- The 401 response body of the scenario,
`{"error":{"message":"invalid key"}}`. -/
def c3ErrorBody : String :=
  "\x7b\"error\":\x7b\"message\":\"invalid key\"\x7d\x7d"

/-- **C3.** When the transport returns a non-success status whose body
parses to `error.message = "invalid key"`, `sendMessageStream` throws
before yielding, and after `handleSendMessage` completes the active
session carries its prior messages, then the user's message unchanged,
then a trailing error-role message `"Groq API Error: invalid key"`, and
the in-flight flag is cleared. -/
theorem claim3_http_error (st : AppState) (content a newId statusText newTitle : String)
    (cur : ChatSession)
    (hnb : jsTrim content ≠ "") (hload : st.inFlight = none)
    (hact : st.activeSessionId = some a) (ha : a ≠ "")
    (hfind : st.chatSessions.find? (fun s => s.id == a) = some cur) :
    ((handleSendMessage st content newId []
        (streamOutcomeOfHttpError statusText c3ErrorBody
          (JsonParseResult.ok (some "invalid key"))) newTitle).chatSessions.find?
        (fun s => s.id == a)
      = some { cur with messages := cur.messages ++
          [⟨MessageRole.user, content⟩,
           ⟨MessageRole.error, "Groq API Error: invalid key"⟩] }) ∧
    isLoading (handleSendMessage st content newId []
        (streamOutcomeOfHttpError statusText c3ErrorBody
          (JsonParseResult.ok (some "invalid key"))) newTitle) = false := by
  have herr : handleApiError statusText c3ErrorBody (JsonParseResult.ok (some "invalid key"))
      = "Groq API Error: invalid key" := by
    simp [handleApiError]
  have hcur : (cur.id == a) = true := by
    have h0 := List.find?_some hfind
    simpa using h0
  have hsend : sendStart st content newId
      = { st with input := "",
                  chatSessions := updateSessionMessages st.chatSessions a
                    (fun ms => ms ++ [⟨MessageRole.user, content⟩, ⟨MessageRole.model, ""⟩]),
                  inFlight := some (a, false) } := by
    simp [sendStart, isLoading, hload, hnb, hact, hfind, ha]
  have hmain : handleSendMessage st content newId []
      (streamOutcomeOfHttpError statusText c3ErrorBody
        (JsonParseResult.ok (some "invalid key"))) newTitle
      = { st with input := "",
                  chatSessions := updateSessionMessages
                    (updateSessionMessages st.chatSessions a
                      (fun ms => ms ++ [⟨MessageRole.user, content⟩, ⟨MessageRole.model, ""⟩]))
                    a
                    (mapLast (fun _ =>
                      ⟨MessageRole.error, "Groq API Error: invalid key"⟩)),
                  inFlight := none } := by
    rw [handleSendMessage]
    rw [if_neg (by simp [isLoading, hload, hnb])]
    simp only [streamOutcomeOfHttpError, List.foldl_nil, hsend, finishError, herr,
      Option.getD_some]
  rw [hmain]
  constructor
  · rw [find?_updateSessionMessages, find?_updateSessionMessages, hfind]
    have hca : cur.id = a := by simpa using hcur
    simp [hca, mapLast_append_two]
  · simp [isLoading]

def c3State : AppState := ⟨[⟨"s1", "T", [⟨MessageRole.user, "q"⟩, ⟨MessageRole.model, "r"⟩]⟩],
  some "s1", "", none⟩

theorem claim3_witness :
    ((handleSendMessage c3State "Hello" "n1" []
        (streamOutcomeOfHttpError "Unauthorized" c3ErrorBody
          (JsonParseResult.ok (some "invalid key"))) "t").chatSessions.find?
        (fun s => s.id == "s1")
      = some ⟨"s1", "T", [⟨MessageRole.user, "q"⟩, ⟨MessageRole.model, "r"⟩,
          ⟨MessageRole.user, "Hello"⟩,
          ⟨MessageRole.error, "Groq API Error: invalid key"⟩]⟩) ∧
    isLoading (handleSendMessage c3State "Hello" "n1" []
        (streamOutcomeOfHttpError "Unauthorized" c3ErrorBody
          (JsonParseResult.ok (some "invalid key"))) "t") = false := by
  have h := claim3_http_error c3State "Hello" "s1" "n1" "Unauthorized" "t"
    ⟨"s1", "T", [⟨MessageRole.user, "q"⟩, ⟨MessageRole.model, "r"⟩]⟩
    (by decide) rfl rfl (by decide) rfl
  simpa using h

/-! ## Claim 6 — the alternation invariant -/

theorem Alt_append_pair (ms : List Message) (u m : Message)
    (hu : u.role = MessageRole.user)
    (hm : m.role = MessageRole.model ∨ m.role = MessageRole.error)
    (h : Alt ms) : Alt (ms ++ [u, m]) := by
  induction h with
  | nil => exact Alt.cons u m [] hu hm Alt.nil
  | cons u' m' rest hu' hm' hrest ih => exact Alt.cons u' m' (rest ++ [u, m]) hu' hm' ih

theorem Alt_mapLast (f : Message → Message) (ms : List Message)
    (hf : ∀ x, (x.role = MessageRole.model ∨ x.role = MessageRole.error) →
      ((f x).role = MessageRole.model ∨ (f x).role = MessageRole.error))
    (h : Alt ms) : Alt (mapLast f ms) := by
  induction h with
  | nil => exact Alt.nil
  | cons u m rest hu hm hrest ih =>
    cases rest with
    | nil => exact Alt.cons u (f m) [] hu (hf m hm) Alt.nil
    | cons r rs =>
      have hmap : mapLast f (u :: m :: r :: rs) = u :: m :: mapLast f (r :: rs) := by
        simp [mapLast]
      rw [hmap]
      exact Alt.cons u m (mapLast f (r :: rs)) hu hm ih

/-- The session-store invariant: every session's message list alternates. -/
def SessionsAlt (st : AppState) : Prop := ∀ s ∈ st.chatSessions, Alt s.messages

theorem SessionsAlt_update (sessions : List ChatSession) (sid : String)
    (f : List Message → List Message)
    (hinv : ∀ s ∈ sessions, Alt s.messages)
    (hf : ∀ ms, Alt ms → Alt (f ms)) :
    ∀ s ∈ updateSessionMessages sessions sid f, Alt s.messages := by
  intro s hs
  rcases List.mem_map.mp hs with ⟨s0, hs0, heq⟩
  by_cases hid : s0.id = sid
  · rw [← heq]
    simp only [hid, beq_self_eq_true, if_pos]
    exact hf s0.messages (hinv s0 hs0)
  · have hb : (s0.id == sid) = false := by simpa using hid
    rw [← heq]
    simp only [hb, Bool.false_eq_true, if_neg, not_false_eq_true]
    exact hinv s0 hs0

theorem stepOp_preserves (st : AppState) (op : Op) (hinv : SessionsAlt st) :
    SessionsAlt (stepOp st op) := by
  cases op with
  | send content newId =>
    show SessionsAlt (sendStart st content newId)
    unfold sendStart
    by_cases hg : (jsTrim content = "" || isLoading st) = true
    · rw [if_pos hg]; exact hinv
    · rw [if_neg hg]
      cases hact : st.activeSessionId with
      | none =>
        simp only
        by_cases hid : newId = ""
        · rw [if_pos hid]
          intro s hs
          have hs2 : s ∈ (⟨newId, "New Chat", []⟩ : ChatSession) :: st.chatSessions := hs
          rcases List.mem_cons.mp hs2 with h | h
          · rw [h]; exact Alt.nil
          · exact hinv s h
        · rw [if_neg hid]
          intro s hs
          have hs2 : s ∈ updateSessionMessages
              ((⟨newId, "New Chat", []⟩ : ChatSession) :: st.chatSessions) newId
              (fun ms => ms ++ [⟨MessageRole.user, content⟩, ⟨MessageRole.model, ""⟩]) := hs
          refine SessionsAlt_update _ newId _ ?_ ?_ s hs2
          · intro s0 hs0
            rcases List.mem_cons.mp hs0 with h | h
            · rw [h]; exact Alt.nil
            · exact hinv s0 h
          · intro ms hms
            exact Alt_append_pair ms _ _ rfl (Or.inl rfl) hms
      | some sid =>
        simp only
        cases hfind : ({ st with input := "" } : AppState).chatSessions.find?
            (fun s => s.id == sid) with
        | none => exact fun s hs => hinv s hs
        | some cur =>
          by_cases hid : sid = ""
          · rw [if_pos hid]; exact fun s hs => hinv s hs
          · rw [if_neg hid]
            intro s hs
            have hs2 : s ∈ updateSessionMessages st.chatSessions sid
                (fun ms => ms ++ [⟨MessageRole.user, content⟩, ⟨MessageRole.model, ""⟩]) := hs
            refine SessionsAlt_update _ sid _ hinv ?_ s hs2
            intro ms hms
            exact Alt_append_pair ms _ _ rfl (Or.inl rfl) hms
  | delta chunk =>
    show SessionsAlt (applyDelta st chunk)
    unfold applyDelta
    cases hfl : st.inFlight with
    | none => exact fun s hs => hinv s hs
    | some p =>
      obtain ⟨sid, isNew⟩ := p
      intro s hs
      have hs2 : s ∈ updateSessionMessages st.chatSessions sid
          (mapLast (fun m => { m with content := chunk })) := hs
      refine SessionsAlt_update _ sid _ hinv ?_ s hs2
      intro ms hms
      refine Alt_mapLast _ ms ?_ hms
      intro x hx
      exact hx
  | complete newTitle =>
    show SessionsAlt (finishOk st newTitle)
    unfold finishOk
    cases hfl : st.inFlight with
    | none => exact fun s hs => hinv s hs
    | some p =>
      obtain ⟨sid, isNew⟩ := p
      cases isNew with
      | false => exact fun s hs => hinv s hs
      | true =>
        intro s hs
        have hs2 : s ∈ st.chatSessions.map (fun s =>
            if s.id == sid then { s with title := newTitle } else s) := hs
        rcases List.mem_map.mp hs2 with ⟨s0, hs0, heq⟩
        by_cases hid : s0.id = sid
        · rw [← heq]
          simp only [hid, beq_self_eq_true, if_pos]
          exact hinv s0 hs0
        · have hb : (s0.id == sid) = false := by simpa using hid
          rw [← heq]
          simp only [hb, Bool.false_eq_true, if_neg, not_false_eq_true]
          exact hinv s0 hs0
  | fail errMsg =>
    show SessionsAlt (finishError st errMsg)
    unfold finishError
    cases hfl : st.inFlight with
    | none => exact fun s hs => hinv s hs
    | some p =>
      obtain ⟨sid, isNew⟩ := p
      intro s hs
      have hs2 : s ∈ updateSessionMessages st.chatSessions sid
          (mapLast (fun _ => ⟨MessageRole.error, errMsg.getD fallbackErrorText⟩)) := hs
      refine SessionsAlt_update _ sid _ hinv ?_ s hs2
      intro ms hms
      refine Alt_mapLast _ ms ?_ hms
      intro x _
      exact Or.inr rfl
  | deleteChat id =>
    show SessionsAlt (confirmDeleteChat st id)
    unfold confirmDeleteChat
    by_cases hid : id = ""
    · rw [if_pos hid]; exact hinv
    · rw [if_neg hid]
      by_cases hacteq : st.activeSessionId = some id
      · rw [if_pos hacteq]
        cases hrem : st.chatSessions.filter (fun s => !(s.id == id)) with
        | nil =>
          intro s hs
          have hs2 : s ∈ ([] : List ChatSession) := hs
          simp at hs2
        | cons first rest =>
          intro s hs
          have hs2 : s ∈ first :: rest := hs
          have hs3 : s ∈ st.chatSessions.filter (fun s => !(s.id == id)) := by
            rw [hrem]; exact hs2
          exact hinv s (List.mem_of_mem_filter hs3)
      · rw [if_neg hacteq]
        intro s hs
        have hs2 : s ∈ st.chatSessions.filter (fun s => !(s.id == id)) := hs
        exact hinv s (List.mem_of_mem_filter hs2)

theorem runOps_preserves (ops : List Op) (st : AppState) (hinv : SessionsAlt st) :
    SessionsAlt (ops.foldl stepOp st) := by
  induction ops generalizing st with
  | nil => exact hinv
  | cons op rest ih => exact ih (stepOp st op) (stepOp_preserves st op hinv)

/-- **C6.** In every state reachable from the initial application state
by any sequence of send-start, stream-delta, stream-completion,
stream-failure and delete operations, each session's message list
consists of user/model pairs: even positions hold user-role messages and
each following slot holds a model-role message (possibly the empty
placeholder) or the error-role message that replaced it wholesale when
the request failed. -/
theorem claim6_alternation (ops : List Op) :
    ∀ s ∈ (runOps ops).chatSessions, Alt s.messages := by
  have hinit : SessionsAlt initialAppState := by
    intro s hs
    simp [initialAppState] at hs
  exact runOps_preserves ops initialAppState hinit

theorem claim6_witness :
    Alt [⟨MessageRole.user, "hi"⟩, ⟨MessageRole.model, ""⟩] :=
  claim6_alternation [Op.send "hi" "a"]
    ⟨"a", "New Chat", [⟨MessageRole.user, "hi"⟩, ⟨MessageRole.model, ""⟩]⟩ (by decide)
